import Mathlib

/-!
Shallow embedding of `source/generate_dict/generate_uid_dict.py`.

Python strings are modelled as `List Char`; Python-level failures
(IndexError, AttributeError, TypeError) are modelled with `Except PyError`.
-/

namespace GenUid

/-- The single-quote character (ASCII 39). -/
def squote : Char := Char.ofNat 39

/-- The zero-width space U+200B removed from cell text. -/
def zwsp : Char := Char.ofNat 0x200b

/-- The soft hyphen U+00AD removed from UID values. -/
def softHyphen : Char := Char.ofNat 0xad

/-- Whitespace characters stripped by Python `str.strip()` (the ASCII set). -/
def pyIsSpace (c : Char) : Bool :=
  c = ' ' || c = Char.ofNat 9 || c = Char.ofNat 10 || c = Char.ofNat 13 ||
  c = Char.ofNat 11 || c = Char.ofNat 12

/-- Python `s.strip()`: remove leading and trailing whitespace. -/
def pyStrip (s : List Char) : List Char :=
  ((s.dropWhile pyIsSpace).reverse.dropWhile pyIsSpace).reverse

/-- Python `sub in s`: substring containment. -/
def pyContains (sub : List Char) : List Char → Bool
  | [] => sub.isEmpty
  | c :: rest => sub.isPrefixOf (c :: rest) || pyContains sub rest

/-- Fuelled worker for `pyReplace`; fuel `s.length` always suffices. -/
def pyReplaceAux (old new : List Char) : Nat → List Char → List Char
  | 0, s => s
  | fuel + 1, s =>
    match s with
    | [] => []
    | c :: rest =>
      if !old.isEmpty && old.isPrefixOf (c :: rest) then
        new ++ pyReplaceAux old new fuel ((c :: rest).drop old.length)
      else
        c :: pyReplaceAux old new fuel rest

/-- Python `s.replace(old, new)`: replace non-overlapping occurrences
left to right (for nonempty `old`). -/
def pyReplace (s old new : List Char) : List Char :=
  pyReplaceAux old new s.length s

/-- Python `s.split(sep)` for a single-character separator: keeps empty
segments, returns at least one segment. -/
def pySplitChar (sep : Char) : List Char → List (List Char)
  | [] => [[]]
  | c :: rest =>
    if c = sep then [] :: pySplitChar sep rest
    else
      match pySplitChar sep rest with
      | [] => [[c]]
      | h :: t => (c :: h) :: t

deriving instance DecidableEq for Except

/-- Python-level exceptions that the script can hit. -/
inductive PyError where
  | indexError
  | attributeError
  | typeError
deriving DecidableEq

/-- A `<td>` cell of a table row, i.e. one `para` element: an optional
`emphasis` child (itself with optional text) and optional direct text. -/
structure Cell where
  emph : Option (Option (List Char))
  text : Option (List Char)
deriving DecidableEq

/-- Extraction of one cell's string, mirroring the `for cell in
row.iter(para)` loop body of `parse_row`: prefer the emphasis child's text,
else the para text, stripped and with zero-width spaces removed. -/
def cellValue (cell : Cell) : List Char :=
  match cell.emph with
  | some (some s) => pyReplace (pyStrip s) [zwsp] []
  | some none => []
  | none =>
    match cell.text with
    | some s => pyReplace (pyStrip s) [zwsp] []
    | none => []

/-- The record assembled for one table row, with the spec's field names;
the source keys them `UID Value`, `UID Name`, `UID Type`, `UID Info`,
`Retired`. -/
structure Record where
  value : List Char
  name : List Char
  kind : List Char
  info : List Char
  retired : List Char
deriving DecidableEq

/-- The literal `"(Retired)"`. -/
def retiredLit : List Char := ("(Retired)".toList)

/-- The literal `"Retired"`. -/
def retiredWord : List Char := ("Retired".toList)

/-- `cell_values[3] = ''` followed by `cell_values.append('')`: the index
assignment raises `IndexError` when the list has fewer than 4 elements. -/
def surgery (cv : List (List Char)) : Except PyError (List (List Char)) :=
  if 3 < cv.length then Except.ok ((cv.set 3 []) ++ [[]]) else Except.error PyError.indexError

/-- The `'(Retired)' in cell_values[1]` branch of `parse_row`: set slot 4 to
`'Retired'` and remove the marker from slot 1, then strip. -/
def retiredStep (cv : List (List Char)) : List (List Char) :=
  let n := cv.getD 1 []
  if pyContains retiredLit n then
    (cv.set 4 retiredWord).set 1 (pyStrip (pyReplace n retiredLit []))
  else cv

/-- Python `lst[-1]` on a split result (a split is never empty). -/
def pyLast : List (List Char) → List Char
  | [] => []
  | [x] => x
  | _ :: y :: t => pyLast (y :: t)

/-- The `':' in cell_values[1]` branch of `parse_row`: slot 3 becomes
`split(':')[-1].strip()`, slot 1 becomes `split(':')[0].strip()`. -/
def colonStep (cv : List (List Char)) : List (List Char) :=
  let n := cv.getD 1 []
  if pyContains [':'] n then
    (cv.set 3 (pyStrip (pyLast (pySplitChar ':' n)))).set 1
      (pyStrip ((pySplitChar ':' n).headD []))
  else cv

/-- `dict(zip(column_names, cell_values))` restricted to the five fixed
column names. -/
def toRecord (cv : List (List Char)) : Record :=
  { value := cv.getD 0 [], name := cv.getD 1 [], kind := cv.getD 2 [],
    info := cv.getD 3 [], retired := cv.getD 4 [] }

/-- `parse_row`: collect the cell strings, perform the positional surgery
(which can raise `IndexError`), the retired step, the colon step, and zip
with the column names. -/
def parse_row (row : List Cell) : Except PyError Record :=
  match surgery (row.map cellValue) with
  | Except.error e => Except.error e
  | Except.ok cv => Except.ok (toRecord (colonStep (retiredStep cv)))

/-- A docbook `table` element: an optional `caption` child (itself with
optional text) and the `tbody` rows, each a list of `para` cells. -/
structure Table where
  caption : Option (Option (List Char))
  body : List (List Cell)

/-- The caption searched for by the script. -/
def targetCaption : List Char := ("UID Values".toList)

/-- `parse_docbook_table`: scan the tables in document order; dereferencing
a missing caption raises `AttributeError`; the first caption match is parsed
with `parse_row` over its body rows; no match falls through to `None`. -/
def parse_docbook_table (tables : List Table) (caption : List Char) :
    Except PyError (Option (List Record)) :=
  match tables with
  | [] => Except.ok none
  | t :: rest =>
    match t.caption with
    | none => Except.error PyError.attributeError
    | some capText =>
      if capText = some caption then
        match t.body.mapM parse_row with
        | Except.error e => Except.error e
        | Except.ok recs => Except.ok (some recs)
      else parse_docbook_table rest caption

/-- The post-extraction normalisation loop: `&` → `and` in the name,
soft hyphens removed from the value. -/
def normalize (r : Record) : Record :=
  { r with name := pyReplace r.name ['&'] ("and".toList),
           value := pyReplace r.value [softHyphen] [] }

/-- Python `sep.join(pieces)`. -/
def joinWith (sep : List Char) : List (List Char) → List Char
  | [] => []
  | [x] => x
  | x :: y :: t => x ++ sep ++ joinWith sep (y :: t)

/-- The `uid_entry` format string `('{UID Name}', '{UID Type}',
'{UID Info}', '{Retired}')` applied to a record. -/
def uid_entry (r : Record) : List Char :=
  ("(".toList) ++ [squote] ++ r.name ++ [squote] ++ (", ".toList) ++
  [squote] ++ r.kind ++ [squote] ++ (", ".toList) ++
  [squote] ++ r.info ++ [squote] ++ (", ".toList) ++
  [squote] ++ r.retired ++ [squote] ++ (")".toList)

/-- The `entry_format` string `'{UID Value}': <uid_entry>` applied to a
record. -/
def entry_format (r : Record) : List Char :=
  [squote] ++ r.value ++ [squote] ++ (": ".toList) ++ uid_entry r

/-- The separator placed between consecutive entries by `write_dict`. -/
def entrySep : List Char := (",  # noqa\n    ".toList)

/-- `write_dict`: the header `\n<name> = {\n    `, the joined entries, and
the footer `  # noqa\n}\n`. -/
def write_dict (dict_name : List Char) (attributes : List Record) : List Char :=
  ("\n".toList) ++ dict_name ++ (" = \x7b\n    ".toList) ++
  joinWith entrySep (attributes.map entry_format) ++
  ("  # noqa\n\x7d\n".toList)

/-- `DICT_NAME`. -/
def DICT_NAME : List Char := ("UID_dictionary".toList)

/-- The docstring line written before the dictionary. -/
def docstringLine : List Char :=
  ("\"\"\"DICOM UID dictionary auto-generated by generate_uid_dict.py\"\"\"\n".toList)

/-- The module-level pipeline: locate the table, normalise, and produce the
output file's content together with the printed record count.  `attrs +=
None` (table not found) raises `TypeError`; every error happens before the
output file is opened, so an error means no file is written. -/
def pipeline (tables : List Table) : Except PyError (List Char × Nat) :=
  match parse_docbook_table tables targetCaption with
  | Except.error e => Except.error e
  | Except.ok none => Except.error PyError.typeError
  | Except.ok (some recs) =>
    let attrs := recs.map normalize
    Except.ok (docstringLine ++ write_dict DICT_NAME attrs, attrs.length)

/-- Closing brace character. -/
def rbrace : Char := Char.ofNat 125

/-- Opening brace character. -/
def lbrace : Char := Char.ofNat 123

/-- Newline character. -/
def nlChar : Char := Char.ofNat 10

/-- Modelled from the claim's words for C1: the portion of a string after
its first colon. -/
def afterFirstColon (s : List Char) : List Char :=
  (s.dropWhile (fun x => x != ':')).drop 1

/-- Skip blanks and `#`-to-end-of-line comments; the flag is true while
inside a comment.  Used only by the spec-side re-parser of the emitted
mapping literal. -/
def skipWsAux : Bool → List Char → List Char
  | _, [] => []
  | true, c :: rest => if c = Char.ofNat 10 then skipWsAux false rest else skipWsAux true rest
  | false, c :: rest =>
    if c = ' ' || c = Char.ofNat 10 then skipWsAux false rest
    else if c = '#' then skipWsAux true rest
    else c :: rest

/-- Skip whitespace and comments starting outside a comment. -/
def skipWs (s : List Char) : List Char := skipWsAux false s

/-- Consume an expected literal token. -/
def expectLit (pat s : List Char) : Option (List Char) :=
  if pat.isPrefixOf s then some (s.drop pat.length) else none

/-- Parse a single-quoted string literal (the emitted fields contain no
escapes); returns the contents and the rest of the input. -/
def parseQuoted (s : List Char) : Option (List Char × List Char) :=
  match s with
  | [] => none
  | c :: rest =>
    if c = squote then
      match rest.dropWhile (fun x => x != squote) with
      | [] => none
      | q :: tail =>
        if q = squote then some (rest.takeWhile (fun x => x != squote), tail) else none
    else none

/-- The value part of a parsed mapping entry: a 4-tuple of strings. -/
abbrev EntryVal : Type := List Char × List Char × List Char × List Char

/-- A parsed mapping entry: key and 4-tuple value. -/
abbrev Entry : Type := List Char × EntryVal

instance entryDecEq : DecidableEq Entry := inferInstance

instance entryListDecEq : DecidableEq (List Entry) := inferInstance

/-- Modelled from the spec's round-trip wording: parse a parenthesised
4-tuple of single-quoted strings. -/
def parseTuple (s : List Char) : Option (EntryVal × List Char) := do
  let s ← expectLit ("(".toList) s
  let (a, s) ← parseQuoted (skipWs s)
  let s ← expectLit (",".toList) (skipWs s)
  let (b, s) ← parseQuoted (skipWs s)
  let s ← expectLit (",".toList) (skipWs s)
  let (c, s) ← parseQuoted (skipWs s)
  let s ← expectLit (",".toList) (skipWs s)
  let (d, s) ← parseQuoted (skipWs s)
  let s ← expectLit (")".toList) (skipWs s)
  pure ((a, b, c, d), s)

/-- Parse one `'key': (tuple)` entry. -/
def parseEntry (s : List Char) : Option (Entry × List Char) := do
  let (k, s) ← parseQuoted s
  let s ← expectLit (":".toList) (skipWs s)
  let (v, s) ← parseTuple (skipWs s)
  pure ((k, v), s)

/-- Parse the comma-separated entries up to the closing brace; `fuel`
bounds the number of entries. -/
def parseEntries : Nat → List Char → Option (List Entry × List Char)
  | 0, _ => none
  | fuel + 1, s =>
    match skipWs s with
    | [] => none
    | c :: rest =>
      if c = rbrace then some ([], rest)
      else
        match parseEntry (c :: rest) with
        | none => none
        | some (e, s2) =>
          match skipWs s2 with
          | [] => none
          | c2 :: rest2 =>
            if c2 = rbrace then some ([e], rest2)
            else if c2 = ',' then
              match parseEntries fuel rest2 with
              | none => none
              | some (es, s3) => some (e :: es, s3)
            else none

/-- Modelled from the spec's round-trip wording: parse the serialized
output back as the target-language mapping literal, returning the entries
in source order. -/
def parsePyDict (s : List Char) : Option (List Entry) := do
  let s := skipWs s
  let nm := s.takeWhile (fun c => c != ' ' && c != '=')
  let s := skipWs (s.drop nm.length)
  let s ← expectLit ("=".toList) s
  let s ← expectLit ("\x7b".toList) (skipWs s)
  let (es, s) ← parseEntries (s.length + 1) s
  if skipWs s = [] then some es else none

/-- The mapping denoted by a list of key-value pairs: the last binding of a
key wins, as in the target language's dict construction. -/
def dictOf (ps : List Entry) (k : List Char) : Option EntryVal :=
  (ps.reverse.find? (fun p => p.1 == k)).map Prod.snd

/-- A record viewed as the mapping entry keyed by its value field. -/
def recordPair (r : Record) : Entry := (r.value, (r.name, r.kind, r.info, r.retired))

/-- A field is safe for the quoting scheme when it contains no single
quote. -/
def noQuote (s : List Char) : Prop := squote ∉ s

/-- All five fields of a record are quote-free. -/
def recordSafe (r : Record) : Prop :=
  noQuote r.value ∧ noQuote r.name ∧ noQuote r.kind ∧ noQuote r.info ∧ noQuote r.retired

instance noQuoteDecidable (s : List Char) : Decidable (noQuote s) :=
  inferInstanceAs (Decidable (squote ∉ s))

instance recordSafeDecidable (r : Record) : Decidable (recordSafe r) :=
  inferInstanceAs (Decidable (noQuote r.value ∧ noQuote r.name ∧
    noQuote r.kind ∧ noQuote r.info ∧ noQuote r.retired))

/-- A well-formed 4-cell row used to exercise the pipeline concretely. -/
def sampleRow : List Cell :=
  [⟨none, some ("1".toList)⟩, ⟨none, some ("N".toList)⟩,
   ⟨none, some ("T".toList)⟩, ⟨none, some ("P".toList)⟩]

/-- A document containing exactly the target table with one row. -/
def sampleTables : List Table := [⟨some (some targetCaption), [sampleRow]⟩]

/-- The record extracted from `sampleRow`. -/
def sampleRec : Record := ⟨("1".toList), ("N".toList), ("T".toList), [], []⟩

/-- A record with value `'1'`. -/
def recA : Record := ⟨("1".toList), ("A".toList), ("T".toList), [], []⟩

/-- A record with value `'2'`. -/
def recB : Record := ⟨("2".toList), ("B".toList), ("T".toList), [], []⟩

example : ("ab".toList) = ['a', 'b'] := by decide

example : pyStrip ("  ab c ".toList) = ("ab c".toList) := by decide

example : pyContains ("(Retired)".toList) ("X (Retired) Y".toList) = true := by decide

example : pyReplace ("a&b&c".toList) ['&'] ("and".toList) = ("aandbandc".toList) := by
  decide

example : pySplitChar ':' ("a:b:c".toList) = [['a'], ['b'], ['c']] := by decide

example : parsePyDict (write_dict DICT_NAME [recA, recB]) =
    some [recordPair recA, recordPair recB] := by decide

example : parsePyDict (write_dict DICT_NAME []) = some [] := by decide

example :
    parse_row [⟨none, some ("1.2".toList)⟩,
               ⟨none, some ("Explicit VR Little Endian: Default Transfer Syntax".toList)⟩,
               ⟨none, some ("Transfer Syntax".toList)⟩,
               ⟨none, some ("PS3.5".toList)⟩] =
      Except.ok ⟨"1.2".toList, "Explicit VR Little Endian".toList,
                 "Transfer Syntax".toList, "Default Transfer Syntax".toList, []⟩ := by
  decide

example :
    parse_row [⟨none, some ("1.2".toList)⟩,
               ⟨some (some ("Some Name (Retired)".toList)), none⟩,
               ⟨none, some ("SOP Class".toList)⟩,
               ⟨none, some ("PS3.4".toList)⟩] =
      Except.ok ⟨"1.2".toList, "Some Name".toList, "SOP Class".toList, [],
                 "Retired".toList⟩ := by
  decide

lemma takeWhile_append_all {α : Type} (p : α → Bool) (l₁ l₂ : List α)
    (h : ∀ x ∈ l₁, p x = true) :
    (l₁ ++ l₂).takeWhile p = l₁ ++ l₂.takeWhile p := by
  induction l₁ with
  | nil => simp
  | cons a t ih =>
    have ha : p a = true := h a (by simp)
    simp [List.takeWhile_cons, ha, ih (fun x hx => h x (by simp [hx]))]

lemma takeWhile_append_stop {α : Type} (p : α → Bool) (l₁ l₂ : List α)
    (h : ∃ x ∈ l₁, p x = false) :
    (l₁ ++ l₂).takeWhile p = l₁.takeWhile p := by
  induction l₁ with
  | nil => simp at h
  | cons a t ih =>
    by_cases ha : p a
    · obtain ⟨x, hx, hpx⟩ := h
      rcases List.mem_cons.mp hx with hx | hx
      · subst hx; exact absurd ha (by simp [hpx])
      · simp [List.takeWhile_cons, ha, ih ⟨x, hx, hpx⟩]
    · simp [List.takeWhile_cons, ha]

lemma splitChar_ne_nil (sep : Char) (s : List Char) : pySplitChar sep s ≠ [] := by
  induction s with
  | nil => simp [pySplitChar]
  | cons c rest ih =>
    by_cases h : c = sep
    · simp [pySplitChar, h]
    · rcases hps : pySplitChar sep rest with _ | ⟨hd, tl⟩
      · exact absurd hps ih
      · simp [pySplitChar, h, hps]

lemma splitChar_headD (sep : Char) (s : List Char) :
    (pySplitChar sep s).headD [] = s.takeWhile (fun x => x != sep) := by
  induction s with
  | nil => rfl
  | cons c rest ih =>
    by_cases h : c = sep
    · subst h
      simp [pySplitChar, List.takeWhile_cons]
    · rcases hps : pySplitChar sep rest with _ | ⟨hd, tl⟩
      · exact absurd hps (splitChar_ne_nil sep rest)
      · have ihh : hd = rest.takeWhile (fun x => x != sep) := by
          have h2 := ih
          rw [hps] at h2
          simpa using h2
        simp [pySplitChar, h, hps, List.takeWhile_cons, bne_iff_ne, ihh]

lemma splitChar_of_not_mem (sep : Char) (s : List Char) (h : sep ∉ s) :
    pySplitChar sep s = [s] := by
  induction s with
  | nil => rfl
  | cons c rest ih =>
    have hc : ¬ c = sep := fun hh => h (by simp [hh])
    have hr : sep ∉ rest := fun hh => h (by simp [hh])
    simp [pySplitChar, hc, ih hr]

lemma splitChar_two_le (sep : Char) (s : List Char) (h : sep ∈ s) :
    2 ≤ (pySplitChar sep s).length := by
  induction s with
  | nil => simp at h
  | cons c rest ih =>
    by_cases hc : c = sep
    · have h1 : 0 < (pySplitChar sep rest).length :=
        List.length_pos.mpr (splitChar_ne_nil sep rest)
      simp only [pySplitChar, if_pos hc, List.length_cons]
      omega
    · have hmem : sep ∈ rest := by
        rcases List.mem_cons.mp h with h1 | h1
        · exact absurd h1.symm hc
        · exact h1
      rcases hps : pySplitChar sep rest with _ | ⟨hd, tl⟩
      · exact absurd hps (splitChar_ne_nil sep rest)
      · have h2 := ih hmem
        rw [hps] at h2
        simp only [pySplitChar, if_neg hc, hps, List.length_cons] at h2 ⊢
        omega

lemma pyLast_of_cons_cons (a b : List Char) (t : List (List Char)) :
    pyLast (a :: b :: t) = pyLast (b :: t) := rfl

lemma splitChar_pyLast (sep : Char) (s : List Char) :
    pyLast (pySplitChar sep s) =
      (s.reverse.takeWhile (fun x => x != sep)).reverse := by
  induction s with
  | nil => rfl
  | cons c rest ih =>
    by_cases hmem : sep ∈ rest
    · have hstop : ∃ x ∈ rest.reverse, (fun x : Char => x != sep) x = false :=
        ⟨sep, by simpa using hmem, by simp⟩
      have hres : ((c :: rest).reverse.takeWhile (fun x => x != sep)).reverse =
          (rest.reverse.takeWhile (fun x => x != sep)).reverse := by
        rw [List.reverse_cons, takeWhile_append_stop _ _ _ hstop]
      rw [hres, ← ih]
      rcases hps : pySplitChar sep rest with _ | ⟨hd, tl⟩
      · exact absurd hps (splitChar_ne_nil sep rest)
      · by_cases hc : c = sep
        · simp [pySplitChar, hc, hps, pyLast_of_cons_cons]
        · have h2 := splitChar_two_le sep rest hmem
          rw [hps] at h2
          simp only [List.length_cons] at h2
          rcases htl : tl with _ | ⟨y, ys⟩
          · rw [htl] at h2; simp at h2
          · simp [pySplitChar, hc, hps, htl, pyLast_of_cons_cons]
    · have hall : ∀ x ∈ rest.reverse, (fun x : Char => x != sep) x = true := by
        intro x hx
        have : x ∈ rest := by simpa using hx
        simp [bne_iff_ne]
        exact fun hh => hmem (hh ▸ this)
      by_cases hc : c = sep
      · subst hc
        rw [List.reverse_cons, takeWhile_append_all _ _ _ hall]
        simp only [pySplitChar, if_pos rfl]
        rw [splitChar_of_not_mem _ _ hmem]
        simp [pyLast, List.takeWhile_cons]
      · simp only [pySplitChar, if_neg hc]
        rw [splitChar_of_not_mem _ _ hmem]
        rw [List.reverse_cons, takeWhile_append_all _ _ _ hall]
        have hcb : ((fun x : Char => x != sep) c) = true := by
          simp [bne_iff_ne]; exact hc
        simp [pyLast, List.takeWhile_cons, hcb]

lemma pyReplaceAux_char (c : Char) (t : List Char) :
    ∀ (fuel : Nat) (s : List Char), s.length ≤ fuel →
      pyReplaceAux [c] t fuel s =
        s.flatMap (fun x => if x = c then t else [x]) := by
  intro fuel
  induction fuel with
  | zero =>
    intro s hs
    have : s = [] := List.length_eq_zero.mp (Nat.le_zero.mp hs)
    subst this; rfl
  | succ n ih =>
    intro s hs
    cases s with
    | nil => rfl
    | cons a rest =>
      have hrest : rest.length ≤ n := by
        simp only [List.length_cons] at hs; omega
      by_cases ha : a = c
      · subst ha
        have hpre : [a].isPrefixOf (a :: rest) = true := by
          simp [List.isPrefixOf]
        simp [pyReplaceAux, hpre, ih rest hrest]
      · have hpre : [c].isPrefixOf (a :: rest) = false := by
          simp [List.isPrefixOf]
          exact fun hh => ha hh.symm
        simp [pyReplaceAux, hpre, ih rest hrest, ha]

lemma pyReplace_char (s : List Char) (c : Char) (t : List Char) :
    pyReplace s [c] t = s.flatMap (fun x => if x = c then t else [x]) :=
  pyReplaceAux_char c t s.length s (Nat.le_refl _)

lemma flatMap_if_nil (s : List Char) (c : Char) :
    s.flatMap (fun x => if x = c then [] else [x]) =
      s.filter (fun x => x != c) := by
  induction s with
  | nil => rfl
  | cons a rest ih =>
    by_cases ha : a = c <;> simp [ha, ih, List.filter_cons, bne_iff_ne]

/-- C2 counterexample: a row yielding six cell values and a row yielding
four cell values are both processed without any error, each emitting a
record, contradicting the claim that any cell count other than five is a
fatal parse error. -/
theorem c2_counterexample :
    parse_row [⟨none, some ("1".toList)⟩, ⟨none, some ("N".toList)⟩,
               ⟨none, some ("T".toList)⟩, ⟨none, some ("P".toList)⟩,
               ⟨none, some ("X".toList)⟩, ⟨none, some ("Y".toList)⟩] =
      Except.ok ⟨("1".toList), ("N".toList), ("T".toList), [], ("X".toList)⟩ ∧
    parse_row [⟨none, some ("1".toList)⟩, ⟨none, some ("N".toList)⟩,
               ⟨none, some ("T".toList)⟩, ⟨none, some ("P".toList)⟩] =
      Except.ok ⟨("1".toList), ("N".toList), ("T".toList), [], []⟩ := by
  decide

/-- C2 (amended): only a row yielding fewer than four cell values aborts
`parse_row`, with an index error and no record; any row yielding four or
more cell values emits a record without error. -/
theorem c2_amended (row : List Cell) :
    (row.length < 4 → parse_row row = Except.error PyError.indexError) ∧
    (4 ≤ row.length → ∃ r, parse_row row = Except.ok r) := by
  constructor
  · intro h
    have h3 : ¬ 3 < row.length := by omega
    simp [parse_row, surgery, h3]
  · intro h
    have h3 : 3 < (row.map cellValue).length := by
      rw [List.length_map]; omega
    refine ⟨toRecord (colonStep (retiredStep
      ((row.map cellValue).set 3 [] ++ [[]]))), ?_⟩
    unfold parse_row surgery
    rw [if_pos h3]

/-- C2 witness: the amended theorem applied to a concrete 3-cell row and a
concrete 4-cell row. -/
theorem c2_witness :
    parse_row [⟨none, some ("1".toList)⟩, ⟨none, some ("N".toList)⟩,
               ⟨none, some ("T".toList)⟩] = Except.error PyError.indexError ∧
    ∃ r, parse_row [⟨none, some ("1".toList)⟩, ⟨none, some ("N".toList)⟩,
               ⟨none, some ("T".toList)⟩, ⟨none, some ("P".toList)⟩] = Except.ok r :=
  ⟨(c2_amended _).1 (by decide), (c2_amended _).2 (by decide)⟩

/-- C3 counterexample: a row yielding exactly five cell values whose fifth
cell is the nonempty string `XX` produces a record whose retired field is
`XX`, which is neither empty nor `Retired`. -/
theorem c3_counterexample :
    parse_row [⟨none, some ("1".toList)⟩, ⟨none, some ("N".toList)⟩,
               ⟨none, some ("T".toList)⟩, ⟨none, some ("P".toList)⟩,
               ⟨none, some ("XX".toList)⟩] =
      Except.ok ⟨("1".toList), ("N".toList), ("T".toList), [], ("XX".toList)⟩ ∧
    ("XX".toList) ≠ ([] : List Char) ∧ ("XX".toList) ≠ retiredWord := by
  decide

/-- C3 (amended): every row yielding exactly four cell values produces a
record with the five fixed string fields whose retired field is either
empty or the exact string `Retired`. -/
theorem c3_amended (c0 c1 c2 c3 : Cell) :
    ∃ r : Record, parse_row [c0, c1, c2, c3] = Except.ok r ∧
      (r.retired = [] ∨ r.retired = retiredWord) := by
  refine ⟨toRecord (colonStep (retiredStep
    [cellValue c0, cellValue c1, cellValue c2, [], []])), ?_, ?_⟩
  · simp [parse_row, surgery, List.set]
  by_cases hr : pyContains retiredLit (cellValue c1)
  · by_cases hc :
      pyContains [':'] (pyStrip (pyReplace (cellValue c1) retiredLit []))
    · right
      simp [surgery, retiredStep, colonStep, toRecord, hr, hc, List.set]
    · right
      simp [surgery, retiredStep, colonStep, toRecord, hr, hc, List.set]
  · by_cases hc : pyContains [':'] (cellValue c1)
    · left
      simp [surgery, retiredStep, colonStep, toRecord, hr, hc, List.set]
    · left
      simp [surgery, retiredStep, colonStep, toRecord, hr, hc, List.set]

/-- C4: on the five-slot state reached for a well-formed row, if the name
slot contains `(Retired)` the retired slot becomes `Retired` and the name
slot has every `(Retired)` removed and is then stripped; otherwise the step
changes nothing.  All other slots are untouched either way. -/
theorem c4_retired_detection (v n k i r5 : List Char) :
    (pyContains retiredLit n = true →
      retiredStep [v, n, k, i, r5] =
        [v, pyStrip (pyReplace n retiredLit []), k, i, retiredWord]) ∧
    (pyContains retiredLit n = false →
      retiredStep [v, n, k, i, r5] = [v, n, k, i, r5]) := by
  constructor <;> intro h <;> simp [retiredStep, h, List.set]

/-- C4 witness: the retired step on the spec's example name
`Some Name (Retired)`. -/
theorem c4_witness :
    retiredStep [[], ("Some Name (Retired)".toList), [], [], []] =
      [[], ("Some Name".toList), [], [], retiredWord] := by
  have h := (c4_retired_detection [] ("Some Name (Retired)".toList) [] [] []).1
    (by decide)
  rw [h]
  decide

/-- C7: when no table's caption matches the target caption, the pipeline
stops with an error (a missing caption child aborts the scan, and a scan
that finds no match makes the module-level `attrs += None` fail), so the
run produces no output content at all. -/
theorem c7_missing_table (tables : List Table)
    (h : ∀ t ∈ tables, t.caption ≠ some (some targetCaption)) :
    ∃ e, pipeline tables = Except.error e := by
  have key : parse_docbook_table tables targetCaption = Except.ok none ∨
      parse_docbook_table tables targetCaption = Except.error PyError.attributeError := by
    induction tables with
    | nil => exact Or.inl rfl
    | cons t rest ih =>
      rcases hc : t.caption with _ | cap
      · exact Or.inr (by simp [parse_docbook_table, hc])
      · have hne : cap ≠ some targetCaption := by
          intro hcap
          exact (h t (by simp)) (by rw [hc, hcap])
        have ih' := ih (fun t' ht' => h t' (List.mem_cons_of_mem _ ht'))
        simpa [parse_docbook_table, hc, hne] using ih'
  rcases key with hk | hk
  · exact ⟨PyError.typeError, by simp [pipeline, hk]⟩
  · exact ⟨PyError.attributeError, by simp [pipeline, hk]⟩

/-- C7 witness: a document whose only table has a different caption makes
the pipeline fail with an error. -/
theorem c7_witness :
    ∃ e, pipeline [⟨some (some ("Other".toList)), []⟩] = Except.error e :=
  c7_missing_table [⟨some (some ("Other".toList)), []⟩] (by decide)

/-- C8: the pipeline is deterministic — two runs on the same document
produce the same result, hence byte-identical output content. -/
theorem c8_deterministic (tables : List Table)
    (o₁ o₂ : Except PyError (List Char × Nat))
    (h₁ : pipeline tables = o₁) (h₂ : pipeline tables = o₂) : o₁ = o₂ := by
  rw [← h₁, ← h₂]

/-- C8 witness: the determinism theorem applied to the sample document. -/
theorem c8_witness : pipeline sampleTables = pipeline sampleTables :=
  c8_deterministic sampleTables _ _ rfl rfl

/-- C10: if every table before some caption-less table has a caption that
does not match, the locator reaches the caption-less table and aborts with
an attribute error (dereferencing the absent caption's text) instead of
skipping it. -/
theorem c10_missing_caption (pre : List Table) (t : Table) (rest : List Table)
    (target : List Char)
    (hpre : ∀ t' ∈ pre, ∃ c, t'.caption = some c ∧ c ≠ some target)
    (ht : t.caption = none) :
    parse_docbook_table (pre ++ t :: rest) target = Except.error PyError.attributeError := by
  induction pre with
  | nil => simp [parse_docbook_table, ht]
  | cons p ps ih =>
    obtain ⟨c, hc, hne⟩ := hpre p (by simp)
    have ih' := ih (fun t' ht' => hpre t' (List.mem_cons_of_mem _ ht'))
    simpa [parse_docbook_table, hc, hne] using ih'

/-- C10 witness: a non-matching captioned table followed by a caption-less
table aborts the scan with an attribute error. -/
theorem c10_witness :
    parse_docbook_table [⟨some (some ("A".toList)), []⟩, ⟨none, []⟩]
        ("UID Values".toList) = Except.error PyError.attributeError :=
  c10_missing_caption [⟨some (some ("A".toList)), []⟩] ⟨none, []⟩ [] _
    (by
      intro t' ht'
      simp only [List.mem_singleton] at ht'
      subst ht'
      exact ⟨some ("A".toList), rfl, by decide⟩)
    rfl

/-- C1 counterexample: for the name `a:b:c` (two colons) the extracted
record's info field is `c`, the trimmed portion after the *last* colon,
and not `b:c`, the trimmed portion after the first colon that the claim
requires. -/
theorem c1_counterexample :
    parse_row [⟨none, some ("1".toList)⟩, ⟨none, some ("a:b:c".toList)⟩,
               ⟨none, some ("t".toList)⟩, ⟨none, some ("p".toList)⟩] =
      Except.ok ⟨("1".toList), ("a".toList), ("t".toList), ("c".toList), []⟩ ∧
    pyStrip (afterFirstColon ("a:b:c".toList)) = ("b:c".toList) ∧
    ("c".toList) ≠ ("b:c".toList) := by
  decide

/-- C1 (amended): when the name slot contains a colon, the colon step
replaces the name with the trimmed portion before the *first* colon and
sets the info slot to the trimmed portion after the *last* colon (for a
single colon this is exactly the portion after that colon); the other
slots are unchanged. -/
theorem c1_amended (v n k i r5 : List Char) (h : pyContains [':'] n = true) :
    colonStep [v, n, k, i, r5] =
      [v, pyStrip (n.takeWhile (fun x => x != ':')), k,
       pyStrip ((n.reverse.takeWhile (fun x => x != ':')).reverse), r5] := by
  simp [colonStep, h, List.set, splitChar_pyLast, ← splitChar_headD]

/-- C1 witness: the colon step on the spec's single-colon example. -/
theorem c1_witness :
    colonStep [[], ("Explicit VR Little Endian: Default Transfer Syntax".toList),
               [], [], []] =
      [[], ("Explicit VR Little Endian".toList), [],
       ("Default Transfer Syntax".toList), []] := by
  have h := c1_amended []
    ("Explicit VR Little Endian: Default Transfer Syntax".toList) [] [] []
    (by decide)
  rw [h]
  decide

/-- C5: the normalisation pass rewrites every literal `&` in the name to
`and`, removes every soft hyphen from the value, leaves kind, info and
retired untouched, and the pipeline applies it to every extracted record
between extraction and serialization. -/
theorem c5_normalization (r : Record) :
    (normalize r).name =
      r.name.flatMap (fun ch => if ch = '&' then ("and".toList) else [ch]) ∧
    (normalize r).value = r.value.filter (fun ch => ch != softHyphen) ∧
    (normalize r).kind = r.kind ∧
    (normalize r).info = r.info ∧
    (normalize r).retired = r.retired ∧
    ∀ (tables : List Table) (recs : List Record),
      parse_docbook_table tables targetCaption = Except.ok (some recs) →
      pipeline tables =
        Except.ok (docstringLine ++ write_dict DICT_NAME (recs.map normalize),
                   (recs.map normalize).length) := by
  refine ⟨?_, ?_, rfl, rfl, rfl, ?_⟩
  · simp [normalize, pyReplace_char]
  · simp [normalize, pyReplace_char, flatMap_if_nil]
  · intro tables recs h
    simp [pipeline, h]

/-- C5 witness: the normalisation conjunct of the theorem applied to the
sample document with its one extracted record. -/
theorem c5_witness :
    pipeline sampleTables =
      Except.ok (docstringLine ++ write_dict DICT_NAME ([sampleRec].map normalize),
                 ([sampleRec].map normalize).length) :=
  (c5_normalization sampleRec).2.2.2.2.2 sampleTables [sampleRec] (by decide)

lemma dropWhile_append_all {α : Type} (p : α → Bool) (l₁ l₂ : List α)
    (h : ∀ x ∈ l₁, p x = true) :
    (l₁ ++ l₂).dropWhile p = l₂.dropWhile p := by
  induction l₁ with
  | nil => simp
  | cons a t ih =>
    have ha : p a = true := h a (by simp)
    simp [List.dropWhile_cons, ha, ih (fun x hx => h x (by simp [hx]))]

lemma tlLpar : ("(".toList) = ['('] := rfl

lemma tlRpar : (")".toList) = [')'] := rfl

lemma tlComma : (",".toList) = [','] := rfl

lemma tlColon : (":".toList) = [':'] := rfl

lemma tlEq : ("=".toList) = ['='] := rfl

lemma tlLbrace : ("\x7b".toList) = ['\x7b'] := rfl

lemma tlColonSp : (": ".toList) = [':', ' '] := rfl

lemma tlCommaSp : (", ".toList) = [',', ' '] := rfl

lemma tlNl : ("\n".toList) = [nlChar] := by decide

lemma skipWs_squote (x : List Char) : skipWs (squote :: x) = squote :: x := rfl

lemma skipWs_comma (x : List Char) : skipWs (',' :: x) = ',' :: x := rfl

lemma skipWs_colon (x : List Char) : skipWs (':' :: x) = ':' :: x := rfl

lemma skipWs_lparen (x : List Char) : skipWs ('(' :: x) = '(' :: x := rfl

lemma skipWs_rparen (x : List Char) : skipWs (')' :: x) = ')' :: x := rfl

lemma skipWs_eq (x : List Char) : skipWs ('=' :: x) = '=' :: x := rfl

lemma skipWs_lbrace (x : List Char) : skipWs (lbrace :: x) = lbrace :: x := rfl

lemma skipWs_rbrace (x : List Char) : skipWs (rbrace :: x) = rbrace :: x := rfl

lemma skipWs_space (x : List Char) : skipWs (' ' :: x) = skipWs x := rfl

lemma skipWs_nl (x : List Char) : skipWs (nlChar :: x) = skipWs x := rfl

lemma skipWs_afterComma (x : List Char) :
    skipWs (("  # noqa\n    ".toList) ++ x) = skipWs x := rfl

lemma skipWs_footer :
    skipWs ("  # noqa\n\x7d\n".toList) = rbrace :: [nlChar] := by decide

lemma expectLit_single (c : Char) (x : List Char) :
    expectLit [c] (c :: x) = some x := by
  simp [expectLit, List.isPrefixOf]

lemma parseQuoted_ok (field tail : List Char) (h : squote ∉ field) :
    parseQuoted (squote :: (field ++ squote :: tail)) = some (field, tail) := by
  have hall : ∀ x ∈ field, ((fun x : Char => x != squote) x) = true := by
    intro x hx
    simp only [bne_iff_ne, ne_eq]
    exact fun hh => h (hh ▸ hx)
  have hdrop : (field ++ squote :: tail).dropWhile (fun x => x != squote) =
      squote :: tail := by
    rw [dropWhile_append_all _ _ _ hall]
    simp [List.dropWhile_cons]
  have htake : (field ++ squote :: tail).takeWhile (fun x => x != squote) =
      field := by
    rw [takeWhile_append_all _ _ _ hall]
    simp [List.takeWhile_cons]
  simp [parseQuoted, hdrop, htake]

lemma parseTuple_ok (n k i re T : List Char)
    (hn : squote ∉ n) (hk : squote ∉ k) (hi : squote ∉ i) (hre : squote ∉ re) :
    parseTuple ('(' :: squote :: (n ++ squote :: ',' :: ' ' :: squote ::
      (k ++ squote :: ',' :: ' ' :: squote ::
        (i ++ squote :: ',' :: ' ' :: squote ::
          (re ++ squote :: ')' :: T))))) =
      some ((n, k, i, re), T) := by
  simp [parseTuple, tlLpar, tlComma, tlRpar, expectLit_single, skipWs_squote,
        skipWs_comma, skipWs_space, skipWs_rparen, parseQuoted_ok, hn, hk, hi, hre]

lemma parseEntry_ok (r : Record) (T : List Char) (h : recordSafe r) :
    parseEntry (squote :: (r.value ++ squote :: ':' :: ' ' :: '(' :: squote ::
      (r.name ++ squote :: ',' :: ' ' :: squote ::
        (r.kind ++ squote :: ',' :: ' ' :: squote ::
          (r.info ++ squote :: ',' :: ' ' :: squote ::
            (r.retired ++ squote :: ')' :: T)))))) =
      some (recordPair r, T) := by
  obtain ⟨hv, hn, hk, hi, hre⟩ := h
  simp only [noQuote] at hv hn hk hi hre
  simp [parseEntry, tlColon, expectLit_single, skipWs_colon, skipWs_space,
        skipWs_lparen, parseQuoted_ok, parseTuple_ok, hv, hn, hk, hi, hre,
        recordPair]

lemma entry_format_append (r : Record) (X : List Char) :
    entry_format r ++ X =
      squote :: (r.value ++ squote :: ':' :: ' ' :: '(' :: squote ::
        (r.name ++ squote :: ',' :: ' ' :: squote ::
          (r.kind ++ squote :: ',' :: ' ' :: squote ::
            (r.info ++ squote :: ',' :: ' ' :: squote ::
              (r.retired ++ squote :: ')' :: X))))) := by
  simp [entry_format, uid_entry, tlColonSp, tlCommaSp, tlLpar, tlRpar]

lemma squote_ne_rbrace : squote ≠ rbrace := by decide

lemma comma_ne_rbrace : ',' ≠ rbrace := by decide

lemma entrySep_cons : entrySep = ',' :: ("  # noqa\n    ".toList) := by decide

lemma skipWs_entrySep (x : List Char) :
    skipWs (entrySep ++ x) = ',' :: (("  # noqa\n    ".toList) ++ x) := rfl

lemma entry_format_ne_nil (r : Record) : 1 ≤ (entry_format r).length := by
  simp [entry_format]

lemma joinWith_length_ge (l : List Record) :
    l.length ≤ (joinWith entrySep (l.map entry_format)).length := by
  induction l with
  | nil => simp [joinWith]
  | cons r rest ih =>
    cases rest with
    | nil =>
      have h1 := entry_format_ne_nil r
      simpa [joinWith] using h1
    | cons r2 rest2 =>
      have h1 := entry_format_ne_nil r
      simp only [List.map_cons, joinWith, List.length_append, List.length_cons] at ih ⊢
      omega

lemma parseEntries_render (attrs : List Record) :
    ∀ (fuel : Nat), attrs.length < fuel →
      (∀ r ∈ attrs, recordSafe r) →
      ∀ s : List Char,
        skipWs s = skipWs (joinWith entrySep (attrs.map entry_format) ++
          ("  # noqa\n\x7d\n".toList)) →
        parseEntries fuel s = some (attrs.map recordPair, [nlChar]) := by
  induction attrs with
  | nil =>
    intro fuel hf _ s hs
    cases fuel with
    | zero => omega
    | succ n =>
      have hss : skipWs s = rbrace :: [nlChar] := by
        rw [hs]
        simp only [List.map_nil, joinWith, List.nil_append]
        exact skipWs_footer
      simp [parseEntries, hss]
  | cons r rest ih =>
    intro fuel hf hsafe s hs
    cases fuel with
    | zero => omega
    | succ n =>
      have hr : recordSafe r := hsafe r (by simp)
      have hrest : ∀ x ∈ rest, recordSafe x := fun x hx => hsafe x (by simp [hx])
      cases rest with
      | nil =>
        have hss : skipWs s =
            entry_format r ++ ("  # noqa\n\x7d\n".toList) := by
          rw [hs]
          simp only [List.map_cons, List.map_nil, joinWith]
          rw [entry_format_append]
          exact skipWs_squote _
        rw [entry_format_append] at hss
        simp only [parseEntries, hss, if_neg squote_ne_rbrace,
          parseEntry_ok r _ hr, skipWs_footer, if_pos rfl]
        simp
      | cons r2 rest2 =>
        have hss : skipWs s =
            entry_format r ++ (entrySep ++
              (joinWith entrySep ((r2 :: rest2).map entry_format) ++
                ("  # noqa\n\x7d\n".toList))) := by
          rw [hs]
          simp only [List.map_cons, joinWith, List.append_assoc]
          rw [← List.map_cons entry_format r2 rest2]
          rw [entry_format_append]
          exact skipWs_squote _
        rw [entry_format_append] at hss
        have hih := ih n (by simp only [List.length_cons] at hf ⊢; omega) hrest
          (("  # noqa\n    ".toList) ++
            (joinWith entrySep ((r2 :: rest2).map entry_format) ++
              ("  # noqa\n\x7d\n".toList)))
          (skipWs_afterComma _)
        simp only [parseEntries, hss, if_neg squote_ne_rbrace,
          parseEntry_ok r _ hr, skipWs_entrySep, if_neg comma_ne_rbrace,
          if_pos rfl, hih]
        simp

lemma skipWs_nlLit (x : List Char) : skipWs (("\n".toList) ++ x) = skipWs x := rfl

lemma skipWs_dictName (x : List Char) :
    skipWs (DICT_NAME ++ x) = DICT_NAME ++ x := rfl

lemma takeWhile_header (y : List Char) :
    ((" = \x7b\n    ".toList) ++ y).takeWhile (fun c => c != ' ' && c != '=') =
      ([] : List Char) := rfl

lemma takeWhile_dictName (y : List Char) :
    (DICT_NAME ++ ((" = \x7b\n    ".toList) ++ y)).takeWhile
      (fun c => c != ' ' && c != '=') = DICT_NAME := by
  rw [takeWhile_append_all _ _ _ (by decide)]
  rw [takeWhile_header]
  simp

lemma drop_dictName (y : List Char) :
    (DICT_NAME ++ y).drop (DICT_NAME.length) = y := by
  simp

lemma skipWs_header (y : List Char) :
    skipWs ((" = \x7b\n    ".toList) ++ y) = '=' :: ((" \x7b\n    ".toList) ++ y) := rfl

lemma skipWs_header2 (y : List Char) :
    skipWs (' ' :: '\x7b' :: '\n' :: ' ' :: ' ' :: ' ' :: ' ' :: y) =
      '\x7b' :: '\n' :: ' ' :: ' ' :: ' ' :: ' ' :: y := rfl

lemma skipWs_nl_only : skipWs [nlChar] = [] := rfl

lemma parse_write_dict (attrs : List Record) (h : ∀ r ∈ attrs, recordSafe r) :
    parsePyDict (write_dict DICT_NAME attrs) = some (attrs.map recordPair) := by
  simp only [parsePyDict, write_dict, List.append_assoc, skipWs_nlLit,
    skipWs_dictName, takeWhile_dictName, drop_dictName, skipWs_header, tlEq,
    expectLit_single, tlLbrace, skipWs_nl_only]
  simp [skipWs_header2, expectLit_single]
  rw [parseEntries_render attrs
    ((joinWith entrySep (attrs.map entry_format)).length + 11 + 1 + 1 + 1 + 1 + 1 + 1)
    (by have h1 := joinWith_length_ge attrs; omega)
    h
    ('\n' :: ' ' :: ' ' :: ' ' :: ' ' ::
      (joinWith entrySep (attrs.map entry_format) ++
        [' ', ' ', '#', ' ', 'n', 'o', 'q', 'a', '\n', '\x7d', '\n']))
    rfl]
  simp [skipWs_nl_only]

/-- C6: the serializer writes exactly one entry per record, each
re-parseable as `'<value>': ('<name>', '<kind>', '<info>', '<retired>')`,
in the records' encounter order; serializing the two sample records in
descending-value order keeps that order, so no ascending sort is
performed despite the module docstring's claim. -/
theorem c6_encounter_order :
    (∀ attrs : List Record, (∀ r ∈ attrs, recordSafe r) →
      parsePyDict (write_dict DICT_NAME attrs) = some (attrs.map recordPair)) ∧
    parsePyDict (write_dict DICT_NAME [recB, recA]) =
      some [(("2".toList), (("B".toList), ("T".toList), [], [])),
            (("1".toList), (("A".toList), ("T".toList), [], []))] := by
  constructor
  · exact parse_write_dict
  · decide

/-- C6 witness: the general conjunct applied to a concrete record list. -/
theorem c6_witness :
    parsePyDict (write_dict DICT_NAME [recA]) = some [recordPair recA] :=
  c6_encounter_order.1 [recA] (by decide)

/-- C9: for quote-free fields, parsing the serialized output back as the
target-language mapping literal recovers exactly the record list keyed by
value, and the induced mapping (last binding wins, so duplicate values
silently overwrite) equals the mapping of the in-memory record list. -/
theorem c9_round_trip (attrs : List Record) (h : ∀ r ∈ attrs, recordSafe r) :
    parsePyDict (write_dict DICT_NAME attrs) = some (attrs.map recordPair) ∧
    ∀ ps, parsePyDict (write_dict DICT_NAME attrs) = some ps →
      dictOf ps = dictOf (attrs.map recordPair) := by
  refine ⟨parse_write_dict attrs h, ?_⟩
  intro ps hps
  rw [parse_write_dict attrs h] at hps
  injection hps with hps
  rw [hps]

/-- C9 witness: the round-trip theorem applied to two concrete records. -/
theorem c9_witness :
    parsePyDict (write_dict DICT_NAME [recA, recB]) =
      some ([recA, recB].map recordPair) ∧
    ∀ ps, parsePyDict (write_dict DICT_NAME [recA, recB]) = some ps →
      dictOf ps = dictOf ([recA, recB].map recordPair) :=
  c9_round_trip [recA, recB] (by decide)

end GenUid
